import Mathlib

/-!
Verification of the multi-device encrypted sync and conflict-resolution
engine of the Reflective-Server repository.

The Lean definitions below are a shallow embedding of
`app/services/sync_service.py` (class `SyncService`) and the sync
endpoints of `app/api/sync.py`.  The database session is modelled as an
explicit pair of row lists (`DB`); SQLAlchemy's `query(...).filter(...)`
becomes `List.filter`, `.first()` becomes `List.head?`, mutating the row
object returned by `.first()` followed by `commit()` becomes replacing
the first matching row of the list, and `ORDER BY`/`LIMIT` become a sort
followed by `List.take`.  Wall-clock times (`datetime`) are modelled as
`Nat`, UUIDs as `Nat`, ciphertext byte strings as `List Nat`.
Nondeterministic inputs of an operation (`datetime.utcnow()`, the UUID a
new row receives) are passed as explicit parameters.
-/

/-- One row of the `encrypted_backups` table, after the migrations
`450c5575b021` (create) — columns `id`, `user_id`, `encrypted_content`,
`content_iv`, `content_tag?`, `encrypted_embedding?`, `embedding_iv?`,
`created_at`, `updated_at`, `device_id`. -/
structure EncryptedBackup where
  id : String
  user_id : Nat
  encrypted_content : List Nat
  content_iv : String
  content_tag : Option String
  encrypted_embedding : Option (List Nat)
  embedding_iv : Option String
  created_at : Nat
  updated_at : Nat
  device_id : String
deriving DecidableEq, Repr

/-- One row of the `sync_conflicts` table, after migrations
`450c5575b021` (create) and `5a1a094e2b27` (adds the nullable
`local_tag` / `remote_tag` auth-tag columns). -/
structure SyncConflict where
  id : Nat
  user_id : Nat
  log_id : String
  local_encrypted_content : List Nat
  local_iv : String
  local_tag : Option String
  local_updated_at : Nat
  local_device_id : String
  remote_encrypted_content : List Nat
  remote_iv : String
  remote_tag : Option String
  remote_updated_at : Nat
  remote_device_id : String
  detected_at : Nat
  resolved : Bool
  resolved_at : Option Nat
deriving DecidableEq, Repr

/-- The wire payload of a push, schema `EncryptedBackupData`
(`app/schemas/encrypted_data.py`): ciphertext fields still
base64-encoded strings. -/
structure EncryptedBackupData where
  id : String
  encrypted_content : String
  content_iv : String
  content_tag : Option String
  encrypted_embedding : Option String
  embedding_iv : Option String
  created_at : Nat
  updated_at : Nat
  device_id : String
deriving DecidableEq, Repr

/-- The resolve-request payload, schema `ConflictResolution`
(`app/schemas/encrypted_data.py`): `chosen_version` plus the optional
merged-content fields.  `model_dump()` turns it into a dict whose keys
are always present, absent fields holding `None`. -/
structure ConflictResolution where
  chosen_version : String
  final_encrypted_content : Option String
  final_iv : Option String
  final_encrypted_embedding : Option String
  final_embedding_iv : Option String
deriving DecidableEq, Repr

/-- The database session state: the two sync tables. -/
structure DB where
  backups : List EncryptedBackup
  conflicts : List SyncConflict
deriving DecidableEq, Repr

/-- Python truthiness of an `Optional[str]` value: `None` and the empty
string are falsy, every other string truthy. -/
def strTruthy : Option String → Bool
  | none => false
  | some s => s ≠ ""

/-- Value of one character of the standard base64 alphabet
(`A`-`Z`, `a`-`z`, `0`-`9`, `+`, `/`), `none` otherwise. -/
def b64charVal (c : Char) : Option Nat :=
  if 'A' ≤ c ∧ c ≤ 'Z' then some (c.toNat - 65)
  else if 'a' ≤ c ∧ c ≤ 'z' then some (c.toNat - 97 + 26)
  else if '0' ≤ c ∧ c ≤ '9' then some (c.toNat - 48 + 52)
  else if c = '+' then some 62
  else if c = '/' then some 63
  else none

/-- Decode one 4-character base64 quantum into 1-3 bytes, `=` padding
shortening the output. -/
def decodeQuantum (a b c d : Char) : List Nat :=
  let va := (b64charVal a).getD 0
  let vb := (b64charVal b).getD 0
  if c = '=' then [va * 4 + vb / 16]
  else
    let vc := (b64charVal c).getD 0
    if d = '=' then [va * 4 + vb / 16, (vb % 16) * 16 + vc / 4]
    else
      let vd := (b64charVal d).getD 0
      [va * 4 + vb / 16, (vb % 16) * 16 + vc / 4, (vc % 4) * 64 + vd]

/-- Decode a filtered character stream 4 characters at a time.  A
trailing group of fewer than 4 characters is invalid base64 (Python's
`binascii.Error`); every payload considered here is validly padded. -/
def b64decodeList : List Char → List Nat
  | a :: b :: c :: d :: rest => decodeQuantum a b c d ++ b64decodeList rest
  | _ => []

/-- Models Python `base64.b64decode` on str input: characters outside
the alphabet-plus-padding set are discarded (default `validate=False`),
then the stream is decoded quantum by quantum. -/
def b64decode (s : String) : List Nat :=
  b64decodeList (s.data.filter (fun ch => (b64charVal ch).isSome || ch = '='))

/-- Replace the first element satisfying `p` by its image under `f`
(models mutating the single row returned by `.first()` and committing). -/
def updateFirst (p : α → Bool) (f : α → α) : List α → List α
  | [] => []
  | x :: xs => if p x then f x :: xs else x :: updateFirst p f xs

/-- Drop the first element satisfying `p` (models `db.delete(row)` on
the row returned by `.first()`). -/
def removeFirst (p : α → Bool) : List α → List α
  | [] => []
  | x :: xs => if p x then xs else x :: removeFirst p xs

/-- `SyncService.detect_conflict` (sync_service.py lines 93-117):
conflict iff same id, different `updated_at` and different `device_id`. -/
def detect_conflict (local_backup : EncryptedBackupData) (remote_backup : EncryptedBackup) : Bool :=
  if local_backup.id ≠ remote_backup.id then false
  else if local_backup.updated_at ≠ remote_backup.updated_at then
    if local_backup.device_id ≠ remote_backup.device_id then true
    else false
  else false

/-- `SyncService.create_conflict_record` (sync_service.py lines 119-159):
persist a `SyncConflict` holding the candidate as the local version and
the stored row as the remote version.  `now` stands for
`datetime.utcnow()` and `cid` for the UUID the new row receives. -/
def create_conflict_record (db : DB) (user_id : Nat) (log_id : String)
    (local_data : EncryptedBackupData) (remote_data : EncryptedBackup)
    (now cid : Nat) : DB × SyncConflict :=
  let conflict : SyncConflict :=
    { id := cid
      user_id := user_id
      log_id := log_id
      local_encrypted_content := b64decode local_data.encrypted_content
      local_iv := local_data.content_iv
      local_tag := local_data.content_tag
      local_updated_at := local_data.updated_at
      local_device_id := local_data.device_id
      remote_encrypted_content := remote_data.encrypted_content
      remote_iv := remote_data.content_iv
      remote_tag := remote_data.content_tag
      remote_updated_at := remote_data.updated_at
      remote_device_id := remote_data.device_id
      detected_at := now
      resolved := false
      resolved_at := none }
  ({ db with conflicts := db.conflicts ++ [conflict] }, conflict)

/-- The field overwrite performed by the no-conflict branch of
`store_encrypted_backup` (sync_service.py lines 61-69): content, IV,
tag, `updated_at`, `device_id` from the candidate; embedding fields only
when the candidate carries a truthy `encrypted_embedding`. -/
def overwriteFromCandidate (d : EncryptedBackupData) (b : EncryptedBackup) : EncryptedBackup :=
  let b1 := { b with
    encrypted_content := b64decode d.encrypted_content
    content_iv := d.content_iv
    content_tag := d.content_tag
    updated_at := d.updated_at
    device_id := d.device_id }
  if strTruthy d.encrypted_embedding then
    { b1 with
      encrypted_embedding := some (b64decode (d.encrypted_embedding.getD ""))
      embedding_iv := d.embedding_iv }
  else b1

/-- `SyncService.store_encrypted_backup` (sync_service.py lines 21-91):
look up the row keyed by `(backup_data.id, user_id)`; if present, either
record a conflict (leaving the row untouched) or overwrite the row; if
absent, insert a fresh row built verbatim from the candidate.  Returns
the new session state plus the `(backup, conflict)` pair the service
returns. -/
def store_encrypted_backup (db : DB) (user_id : Nat) (backup_data : EncryptedBackupData)
    (now cid : Nat) : DB × Option EncryptedBackup × Option SyncConflict :=
  match (db.backups.filter
      (fun b => b.id == backup_data.id && b.user_id == user_id)).head? with
  | some existing =>
      if detect_conflict backup_data existing then
        let (db2, conflict_record) :=
          create_conflict_record db user_id backup_data.id backup_data existing now cid
        (db2, none, some conflict_record)
      else
        let newBackups :=
          updateFirst (fun b => b.id == backup_data.id && b.user_id == user_id)
            (overwriteFromCandidate backup_data) db.backups
        ({ db with backups := newBackups },
         some (overwriteFromCandidate backup_data existing), none)
  | none =>
      let new_backup : EncryptedBackup :=
        { id := backup_data.id
          user_id := user_id
          encrypted_content := b64decode backup_data.encrypted_content
          content_iv := backup_data.content_iv
          content_tag := backup_data.content_tag
          encrypted_embedding :=
            if strTruthy backup_data.encrypted_embedding then
              some (b64decode (backup_data.encrypted_embedding.getD ""))
            else none
          embedding_iv := backup_data.embedding_iv
          created_at := backup_data.created_at
          updated_at := backup_data.updated_at
          device_id := backup_data.device_id }
      ({ db with backups := db.backups ++ [new_backup] }, some new_backup, none)

/-- Ascending order on `updated_at`, the `ORDER BY updated_at ASC` of
`fetch_backups_since`. -/
def updLe (a b : EncryptedBackup) : Prop := a.updated_at ≤ b.updated_at

instance : DecidableRel updLe := fun a b => Nat.decLe a.updated_at b.updated_at

instance : IsTotal EncryptedBackup updLe := ⟨fun a b => Nat.le_total a.updated_at b.updated_at⟩

instance : IsTrans EncryptedBackup updLe := ⟨fun _ _ _ h1 h2 => Nat.le_trans h1 h2⟩

/-- Descending order on `detected_at`, the `ORDER BY detected_at DESC`
of `get_unresolved_conflicts`. -/
def detGe (a b : SyncConflict) : Prop := b.detected_at ≤ a.detected_at

instance : DecidableRel detGe := fun a b => Nat.decLe b.detected_at a.detected_at

instance : IsTotal SyncConflict detGe :=
  ⟨fun a b => Or.symm (Nat.le_total a.detected_at b.detected_at)⟩

instance : IsTrans SyncConflict detGe := ⟨fun _ _ _ h1 h2 => Nat.le_trans h2 h1⟩

/-- `SyncService.fetch_backups_since` (sync_service.py lines 161-195):
filter by owner, then by `updated_at > since_timestamp` when the cursor
is truthy (a Python `datetime` is always truthy, so truthy = present),
then by `device_id != exclude_device_id` when that string is truthy
(`None` and `""` are both falsy), order ascending by `updated_at`, cap
at `limit`. -/
def fetch_backups_since (db : DB) (user_id : Nat) (since_timestamp : Option Nat)
    (exclude_device_id : Option String) (limit : Nat) : List EncryptedBackup :=
  let q := db.backups.filter (fun b => b.user_id == user_id)
  let q := match since_timestamp with
    | some t => q.filter (fun b => t < b.updated_at)
    | none => q
  let q := if strTruthy exclude_device_id then
      q.filter (fun b => b.device_id != exclude_device_id.getD "")
    else q
  (List.insertionSort updLe q).take limit

/-- The fetch endpoint `fetch_encrypted_backups` (api/sync.py lines
114-179): delegates to the service and reports
`has_more = (len(backups) == limit)`. -/
def fetch_encrypted_backups (db : DB) (user_id : Nat) (since : Option Nat)
    (device_id : Option String) (limit : Nat) : List EncryptedBackup × Bool :=
  let backups := fetch_backups_since db user_id since device_id limit
  (backups, backups.length == limit)

/-- `SyncService.delete_backup` (sync_service.py lines 197-224). -/
def delete_backup (db : DB) (backup_id : String) (user_id : Nat) : DB × Bool :=
  match (db.backups.filter (fun b => b.id == backup_id && b.user_id == user_id)).head? with
  | none => (db, false)
  | some _ =>
      let newBackups :=
        removeFirst (fun b => b.id == backup_id && b.user_id == user_id) db.backups
      ({ db with backups := newBackups }, true)

/-- `SyncService.delete_all_backups` (sync_service.py lines 226-243). -/
def delete_all_backups (db : DB) (user_id : Nat) : DB × Nat :=
  let n := (db.backups.filter (fun b => b.user_id == user_id)).length
  ({ db with backups := db.backups.filter (fun b => !(b.user_id == user_id)) }, n)

/-- `SyncService.get_unresolved_conflicts` (sync_service.py lines
245-263): the owner's unresolved conflicts, most recently detected
first. -/
def get_unresolved_conflicts (db : DB) (user_id : Nat) : List SyncConflict :=
  List.insertionSort detGe
    (db.conflicts.filter (fun c => c.user_id == user_id && c.resolved == false))

/-- The body of the chosen-version dispatch of
`SyncService.resolve_conflict` (sync_service.py lines 300-315) applied
to the target backup row: `local` copies content/IV/timestamp/device
from the conflict's local version (the stored auth tag is left as it
was), `remote` changes nothing, `merged` installs the supplied content
and IV with `updated_at = now` plus optional embedding fields, any
other string changes nothing.  `none` models the Python exception
raised when `merged` is chosen with a missing field (`b64decode(None)`
raises, and a `None` IV violates the NOT NULL column at commit): the
request aborts, the API handler rolls the session back, and no row
changes. -/
def applyResolution (resolution : ConflictResolution) (conflict : SyncConflict)
    (backup : EncryptedBackup) (now : Nat) : Option EncryptedBackup :=
  if resolution.chosen_version = "local" then
    some { backup with
      encrypted_content := conflict.local_encrypted_content
      content_iv := conflict.local_iv
      updated_at := conflict.local_updated_at
      device_id := conflict.local_device_id }
  else if resolution.chosen_version = "remote" then
    some backup
  else if resolution.chosen_version = "merged" then
    match resolution.final_encrypted_content, resolution.final_iv with
    | some fc, some fiv =>
        let b1 := { backup with
          encrypted_content := b64decode fc
          content_iv := fiv
          updated_at := now }
        some (if strTruthy resolution.final_encrypted_embedding then
          { b1 with
            encrypted_embedding := some (b64decode (resolution.final_encrypted_embedding.getD ""))
            embedding_iv := resolution.final_embedding_iv }
        else b1)
    | _, _ => none
  else
    some backup

/-- Outcome of `SyncService.resolve_conflict`: `notFound` models the
`None` return (conflict or backup missing), `raised` a Python exception
escaping the service (rolled back by the caller), `ok b` the updated
backup row. -/
inductive ResolveOutcome where
  | notFound : ResolveOutcome
  | raised : ResolveOutcome
  | ok : EncryptedBackup → ResolveOutcome
deriving DecidableEq, Repr

/-- `SyncService.resolve_conflict` (sync_service.py lines 265-322):
look up the conflict by `(conflict_id, user_id)`, then the target
backup by `(conflict.log_id, user_id)`; apply the chosen resolution to
the backup row and mark the conflict resolved (`resolved = True`,
`resolved_at = now`). -/
def resolve_conflict (db : DB) (conflict_id : Nat) (user_id : Nat)
    (resolution : ConflictResolution) (now : Nat) : DB × ResolveOutcome :=
  match (db.conflicts.filter (fun c => c.id == conflict_id && c.user_id == user_id)).head? with
  | none => (db, ResolveOutcome.notFound)
  | some conflict =>
      match (db.backups.filter
          (fun b => b.id == conflict.log_id && b.user_id == user_id)).head? with
      | none => (db, ResolveOutcome.notFound)
      | some backup =>
          match applyResolution resolution conflict backup now with
          | none => (db, ResolveOutcome.raised)
          | some backup2 =>
              let newBackups :=
                updateFirst (fun b => b.id == conflict.log_id && b.user_id == user_id)
                  (fun _ => backup2) db.backups
              let newConflicts :=
                updateFirst (fun c => c.id == conflict_id && c.user_id == user_id)
                  (fun c => { c with resolved := true, resolved_at := some now })
                  db.conflicts
              ({ backups := newBackups, conflicts := newConflicts },
               ResolveOutcome.ok backup2)

/-- The resolve endpoint `resolve_sync_conflict` (api/sync.py lines
283-347): a `merged` resolution with a falsy `final_encrypted_content`
or `final_iv` is rejected with 422 before the service runs; otherwise
the service outcome maps to 200, 404 (with nothing committed) or 500
(rolled back). -/
def resolve_sync_conflict (db : DB) (user_id : Nat) (conflict_id : Nat)
    (resolution : ConflictResolution) (now : Nat) : DB × Nat :=
  if resolution.chosen_version == "merged"
      && (!(strTruthy resolution.final_encrypted_content)
          || !(strTruthy resolution.final_iv)) then
    (db, 422)
  else
    match resolve_conflict db conflict_id user_id resolution now with
    | (db2, ResolveOutcome.ok _) => (db2, 200)
    | (db2, ResolveOutcome.notFound) => (db2, 404)
    | (db2, ResolveOutcome.raised) => (db2, 500)

/-- The backup rows of `db` that belong to owners other than `uid`. -/
def otherOwnersBackups (db : DB) (uid : Nat) : List EncryptedBackup :=
  db.backups.filter (fun b => !(b.user_id == uid))

/-- The conflict rows of `db` that belong to owners other than `uid`. -/
def otherOwnersConflicts (db : DB) (uid : Nat) : List SyncConflict :=
  db.conflicts.filter (fun c => !(c.user_id == uid))

/-! ### General lemmas about the list-level session model -/

/-- The row returned by `.first()` on a filtered query satisfies the
filter predicate and belongs to the table. -/
theorem head_filter_eq_some {α} (p : α → Bool) (l : List α) (a : α)
    (h : (l.filter p).head? = some a) : p a = true ∧ a ∈ l := by
  induction l with
  | nil => simp at h
  | cons x xs ih =>
    rw [List.filter_cons] at h
    by_cases hx : p x = true
    · rw [if_pos hx, List.head?_cons, Option.some.injEq] at h
      subst h
      exact ⟨hx, List.mem_cons_self x xs⟩
    · rw [if_neg hx] at h
      rcases ih h with ⟨h1, h2⟩
      exact ⟨h1, List.mem_cons_of_mem x h2⟩

/-- Updating the first `p`-row does not change the rows a disjoint
filter `q` selects, provided `p`-rows are never `q`-rows, before or
after the update. -/
theorem filter_updateFirst {α} (p q : α → Bool) (f : α → α)
    (h1 : ∀ x, p x = true → q x = false)
    (h2 : ∀ x, p x = true → q (f x) = false) :
    ∀ l : List α, (updateFirst p f l).filter q = l.filter q := by
  intro l
  induction l with
  | nil => rfl
  | cons x xs ih =>
    by_cases hx : p x = true
    · have e1 : updateFirst p f (x :: xs) = f x :: xs := by
        simp [updateFirst, hx]
      rw [e1, List.filter_cons, List.filter_cons, h1 x hx, h2 x hx]
      simp
    · have e1 : updateFirst p f (x :: xs) = x :: updateFirst p f xs := by
        simp [updateFirst, hx]
      rw [e1, List.filter_cons, List.filter_cons, ih]

/-- Deleting the first `p`-row does not change the rows a disjoint
filter `q` selects. -/
theorem filter_removeFirst {α} (p q : α → Bool)
    (h1 : ∀ x, p x = true → q x = false) :
    ∀ l : List α, (removeFirst p l).filter q = l.filter q := by
  intro l
  induction l with
  | nil => rfl
  | cons x xs ih =>
    by_cases hx : p x = true
    · have e1 : removeFirst p (x :: xs) = xs := by simp [removeFirst, hx]
      rw [e1, List.filter_cons, h1 x hx]
      simp
    · have e1 : removeFirst p (x :: xs) = x :: removeFirst p xs := by
        simp [removeFirst, hx]
      rw [e1, List.filter_cons, List.filter_cons, ih]

/-- Replacing the first `p`-row by the very row `.first()` returned is
a no-op. -/
theorem updateFirst_head_self {α} (p : α → Bool) (l : List α) (a : α)
    (h : (l.filter p).head? = some a) : updateFirst p (fun _ => a) l = l := by
  induction l with
  | nil => rfl
  | cons x xs ih =>
    rw [List.filter_cons] at h
    by_cases hx : p x = true
    · rw [if_pos hx, List.head?_cons, Option.some.injEq] at h
      subst h
      simp [updateFirst, hx]
    · rw [if_neg hx] at h
      simp [updateFirst, hx, ih h]

/-! ### Sample rows used by witness theorems -/

/-- A stored backup row: entry `X` of user `0`, written by device `A`
at time 15. -/
def eA : EncryptedBackup :=
  { id := "X", user_id := 0, encrypted_content := [120, 121, 122],
    content_iv := "ivA", content_tag := some "tagA",
    encrypted_embedding := none, embedding_iv := none,
    created_at := 10, updated_at := 15, device_id := "A" }

/-- A candidate push for entry `X` from device `B` at time 20
(`"YWJj"` decodes to `[97, 98, 99]`). -/
def dB : EncryptedBackupData :=
  { id := "X", encrypted_content := "YWJj", content_iv := "ivB",
    content_tag := some "tagB", encrypted_embedding := none,
    embedding_iv := none, created_at := 10, updated_at := 20,
    device_id := "B" }

/-- A session holding exactly the stored row `eA`. -/
def dbAX : DB := { backups := [eA], conflicts := [] }

/-- The same candidate as `dB` but carrying the stored row's timestamp
15: same timestamp, different device, different content. -/
def dBsame : EncryptedBackupData := { dB with updated_at := 15 }

/-! ### C1 — conflict detection decision -/

/-- Claim C1: for a candidate and a stored record with the same id, the
Conflict Detector reports a conflict if and only if the `updated_at`
timestamps differ AND the `device_id`s differ; an equal timestamp or an
equal device identifier never yields a conflict. -/
theorem claim1_detect_conflict_iff (d : EncryptedBackupData) (e : EncryptedBackup)
    (hid : d.id = e.id) :
    detect_conflict d e = true ↔
      (d.updated_at ≠ e.updated_at ∧ d.device_id ≠ e.device_id) := by
  unfold detect_conflict
  simp [hid]

/-- Witness for C1 at the concrete pair `(dB, eA)`. -/
theorem claim1_witness :
    dB.id = eA.id ∧
      (detect_conflict dB eA = true ↔
        (dB.updated_at ≠ eA.updated_at ∧ dB.device_id ≠ eA.device_id)) :=
  ⟨rfl, claim1_detect_conflict_iff dB eA rfl⟩

/-! ### C2 — upsert against an existing row: exactly one side effect -/

/-- Claim C2: when the upsert finds an existing stored row, exactly one of
two side effects occurs.  On conflict the backups table is untouched,
no stored record is returned, and the persisted conflict carries the
candidate as `localVersion` and the existing row as `remoteVersion`;
otherwise the conflicts table is untouched and the stored row is
overwritten from the candidate. -/
theorem claim2_upsert_exactly_one (db : DB) (uid : Nat) (d : EncryptedBackupData)
    (now cid : Nat) (e : EncryptedBackup)
    (h : (db.backups.filter (fun b => b.id == d.id && b.user_id == uid)).head? = some e) :
    (detect_conflict d e = true →
      (store_encrypted_backup db uid d now cid).1.backups = db.backups ∧
      (store_encrypted_backup db uid d now cid).2.1 = none ∧
      ∃ c : SyncConflict,
        (store_encrypted_backup db uid d now cid).2.2 = some c ∧
        (store_encrypted_backup db uid d now cid).1.conflicts = db.conflicts ++ [c] ∧
        c.local_encrypted_content = b64decode d.encrypted_content ∧
        c.local_iv = d.content_iv ∧ c.local_tag = d.content_tag ∧
        c.local_updated_at = d.updated_at ∧ c.local_device_id = d.device_id ∧
        c.remote_encrypted_content = e.encrypted_content ∧
        c.remote_iv = e.content_iv ∧ c.remote_tag = e.content_tag ∧
        c.remote_updated_at = e.updated_at ∧ c.remote_device_id = e.device_id) ∧
    (detect_conflict d e = false →
      (store_encrypted_backup db uid d now cid).1.conflicts = db.conflicts ∧
      (store_encrypted_backup db uid d now cid).2.2 = none ∧
      (store_encrypted_backup db uid d now cid).2.1 = some (overwriteFromCandidate d e) ∧
      (store_encrypted_backup db uid d now cid).1.backups =
        updateFirst (fun b => b.id == d.id && b.user_id == uid)
          (overwriteFromCandidate d) db.backups) := by
  constructor
  · intro hd
    simp only [store_encrypted_backup, h, hd, if_true, create_conflict_record]
    simp
  · intro hd
    simp only [store_encrypted_backup, h, hd, Bool.false_eq_true, if_false]
    simp

/-- Witness for C2: the conflicting push `dB` against the session
`dbAX` that stores `eA`. -/
theorem claim2_witness :
    ((dbAX.backups.filter (fun b => b.id == dB.id && b.user_id == 0)).head? = some eA) ∧
      ((detect_conflict dB eA = true →
        (store_encrypted_backup dbAX 0 dB 52 3).1.backups = dbAX.backups ∧
        (store_encrypted_backup dbAX 0 dB 52 3).2.1 = none ∧
        ∃ c : SyncConflict,
          (store_encrypted_backup dbAX 0 dB 52 3).2.2 = some c ∧
          (store_encrypted_backup dbAX 0 dB 52 3).1.conflicts = dbAX.conflicts ++ [c] ∧
          c.local_encrypted_content = b64decode dB.encrypted_content ∧
          c.local_iv = dB.content_iv ∧ c.local_tag = dB.content_tag ∧
          c.local_updated_at = dB.updated_at ∧ c.local_device_id = dB.device_id ∧
          c.remote_encrypted_content = eA.encrypted_content ∧
          c.remote_iv = eA.content_iv ∧ c.remote_tag = eA.content_tag ∧
          c.remote_updated_at = eA.updated_at ∧ c.remote_device_id = eA.device_id) ∧
      (detect_conflict dB eA = false →
        (store_encrypted_backup dbAX 0 dB 52 3).1.conflicts = dbAX.conflicts ∧
        (store_encrypted_backup dbAX 0 dB 52 3).2.2 = none ∧
        (store_encrypted_backup dbAX 0 dB 52 3).2.1 = some (overwriteFromCandidate dB eA) ∧
        (store_encrypted_backup dbAX 0 dB 52 3).1.backups =
          updateFirst (fun b => b.id == dB.id && b.user_id == 0)
            (overwriteFromCandidate dB) dbAX.backups)) :=
  ⟨by decide, claim2_upsert_exactly_one dbAX 0 dB 52 3 eA (by decide)⟩

/-! ### C3 — no silent drop of concurrent edits -/

/-- Counterexample to C3 as stated: the push `dBsame` has a different
device (`B` vs `A`) and different content than the stored row `eA`, yet
because the timestamps are equal the upsert silently overwrites the
stored version and persists no ConflictRecord. -/
theorem claim3_counterexample :
    dBsame.device_id ≠ eA.device_id ∧
      b64decode dBsame.encrypted_content ≠ eA.encrypted_content ∧
      (store_encrypted_backup dbAX 0 dBsame 99 7).2.2 = none ∧
      (store_encrypted_backup dbAX 0 dBsame 99 7).1.conflicts = dbAX.conflicts ∧
      (store_encrypted_backup dbAX 0 dBsame 99 7).1.backups ≠ dbAX.backups := by
  decide

/-- Claim C3 amended: a push from a different device with different content
AND a different timestamp than the stored version is never applied
silently — the stored row is untouched and a ConflictRecord is
persisted. -/
theorem claim3_no_silent_drop (db : DB) (uid : Nat) (d : EncryptedBackupData)
    (now cid : Nat) (e : EncryptedBackup)
    (h : (db.backups.filter (fun b => b.id == d.id && b.user_id == uid)).head? = some e)
    (hdev : d.device_id ≠ e.device_id)
    (hts : d.updated_at ≠ e.updated_at)
    (hcontent : b64decode d.encrypted_content ≠ e.encrypted_content) :
    (store_encrypted_backup db uid d now cid).1.backups = db.backups ∧
      ∃ c, (store_encrypted_backup db uid d now cid).2.2 = some c ∧
        (store_encrypted_backup db uid d now cid).1.conflicts = db.conflicts ++ [c] := by
  have hkey := (head_filter_eq_some _ _ _ h).1
  rw [Bool.and_eq_true, beq_iff_eq, beq_iff_eq] at hkey
  have hid : d.id = e.id := hkey.1.symm
  have hd : detect_conflict d e = true := by
    unfold detect_conflict
    simp [hid, hts, hdev]
  simp only [store_encrypted_backup, h, hd, if_true, create_conflict_record]
  simp

/-- Witness for the amended C3 at the concrete push `dB` against
`dbAX`. -/
theorem claim3_witness :
    (store_encrypted_backup dbAX 0 dB 52 3).1.backups = dbAX.backups ∧
      ∃ c, (store_encrypted_backup dbAX 0 dB 52 3).2.2 = some c ∧
        (store_encrypted_backup dbAX 0 dB 52 3).1.conflicts = dbAX.conflicts ++ [c] :=
  claim3_no_silent_drop dbAX 0 dB 52 3 eA (by decide) (by decide) (by decide) (by decide)

/-! ### C4-C6 — conflict resolution -/

/-- The conflict the push `dB` against `eA` produces: local version
from device `B` (with auth tag `tagB`), remote version the stored
`eA`. -/
def cW : SyncConflict :=
  { id := 3, user_id := 0, log_id := "X",
    local_encrypted_content := [97, 98, 99], local_iv := "ivB",
    local_tag := some "tagB", local_updated_at := 20, local_device_id := "B",
    remote_encrypted_content := [120, 121, 122], remote_iv := "ivA",
    remote_tag := some "tagA", remote_updated_at := 15, remote_device_id := "A",
    detected_at := 52, resolved := false, resolved_at := none }

/-- A session holding the stored row `eA` and the pending conflict
`cW`. -/
def dbConf : DB := { backups := [eA], conflicts := [cW] }

/-- A keep-local resolution request. -/
def resLocal : ConflictResolution :=
  { chosen_version := "local", final_encrypted_content := none,
    final_iv := none, final_encrypted_embedding := none,
    final_embedding_iv := none }

/-- A keep-remote resolution request. -/
def resRemote : ConflictResolution :=
  { chosen_version := "remote", final_encrypted_content := none,
    final_iv := none, final_encrypted_embedding := none,
    final_embedding_iv := none }

/-- A merged resolution request that carries content but no IV. -/
def resMergedNoIV : ConflictResolution :=
  { chosen_version := "merged", final_encrypted_content := some "QUJD",
    final_iv := none, final_encrypted_embedding := none,
    final_embedding_iv := none }

/-- The backup row that resolving `dbConf`'s conflict with `local`
actually produces: content, IV, timestamp and device come from the
conflict's local version, but `content_tag` keeps the old stored value
`tagA` instead of the local version's `tagB`. -/
def bLocalRes : EncryptedBackup :=
  { eA with
    encrypted_content := [97, 98, 99]
    content_iv := "ivB"
    updated_at := 20
    device_id := "B" }

/-- Claim C4, evaluated at the failing input: resolving with
`chosenVersion == local` copies the local version's content, IV,
timestamp and device onto the stored row, but does NOT copy the local
auth tag — the row keeps the remote tag `tagA` although the conflict
stores the local tag `tagB` (sync_service.py lines 302-306 never read
`conflict.local_tag`). -/
theorem claim4_local_tag_not_restored :
    (resolve_conflict dbConf 3 0 resLocal 99).2 = ResolveOutcome.ok bLocalRes ∧
      bLocalRes.encrypted_content = cW.local_encrypted_content ∧
      bLocalRes.content_iv = cW.local_iv ∧
      bLocalRes.updated_at = cW.local_updated_at ∧
      bLocalRes.device_id = cW.local_device_id ∧
      bLocalRes.content_tag = eA.content_tag ∧
      bLocalRes.content_tag ≠ cW.local_tag ∧
      (resolve_conflict dbConf 3 0 resLocal 99).1.backups = [bLocalRes] := by
  decide

/-- Claim C5: a `merged` resolve request missing `finalContent` or
`finalIV` (falsy, as the endpoint tests truthiness) is rejected with
422 before the service runs, mutating nothing. -/
theorem claim5_merged_missing_fields_422 (db : DB) (uid cid : Nat)
    (res : ConflictResolution) (now : Nat)
    (hv : res.chosen_version = "merged")
    (hmiss : strTruthy res.final_encrypted_content = false ∨
      strTruthy res.final_iv = false) :
    resolve_sync_conflict db uid cid res now = (db, 422) := by
  unfold resolve_sync_conflict
  rw [hv]
  rcases hmiss with hm | hm <;> simp [hm]

/-- Witness for C5: the IV-less merged request against `dbConf`. -/
theorem claim5_witness :
    resMergedNoIV.chosen_version = "merged" ∧
      strTruthy resMergedNoIV.final_iv = false ∧
      resolve_sync_conflict dbConf 0 3 resMergedNoIV 99 = (dbConf, 422) :=
  ⟨rfl, rfl, claim5_merged_missing_fields_422 dbConf 0 3 resMergedNoIV 99 rfl (Or.inr rfl)⟩

/-- Claim C6: resolving an existing, owned conflict with
`chosenVersion == remote` leaves the backups table byte-identical and
only marks the conflict resolved. -/
theorem claim6_remote_no_mutation (db : DB) (cid uid now : Nat)
    (res : ConflictResolution) (c : SyncConflict) (b : EncryptedBackup)
    (hres : res.chosen_version = "remote")
    (hc : (db.conflicts.filter (fun x => x.id == cid && x.user_id == uid)).head? = some c)
    (hb : (db.backups.filter (fun x => x.id == c.log_id && x.user_id == uid)).head? = some b) :
    (resolve_conflict db cid uid res now).1.backups = db.backups ∧
      (resolve_conflict db cid uid res now).1.conflicts =
        updateFirst (fun x => x.id == cid && x.user_id == uid)
          (fun x => { x with resolved := true, resolved_at := some now }) db.conflicts ∧
      (resolve_conflict db cid uid res now).2 = ResolveOutcome.ok b := by
  have happ : applyResolution res c b now = some b := by
    unfold applyResolution
    rw [hres]
    simp
  simp only [resolve_conflict, hc, hb, happ]
  exact ⟨updateFirst_head_self _ _ _ hb, trivial, trivial⟩

/-- Witness for C6 at the session `dbConf`. -/
theorem claim6_witness :
    (resolve_conflict dbConf 3 0 resRemote 99).1.backups = dbConf.backups ∧
      (resolve_conflict dbConf 3 0 resRemote 99).1.conflicts =
        updateFirst (fun x => x.id == 3 && x.user_id == 0)
          (fun x => { x with resolved := true, resolved_at := some 99 }) dbConf.conflicts ∧
      (resolve_conflict dbConf 3 0 resRemote 99).2 = ResolveOutcome.ok eA :=
  claim6_remote_no_mutation dbConf 3 0 99 resRemote cW eA rfl (by decide) (by decide)

/-! ### C7 and C10 — incremental fetch -/

/-- Every record the fetch returns comes from the backups table, is
owned by the queried user, beats a present cursor, and avoids a
non-empty excluded device. -/
theorem fetch_mem_spec (db : DB) (uid : Nat) (since : Option Nat)
    (excl : Option String) (limit : Nat) (b : EncryptedBackup)
    (hb : b ∈ fetch_backups_since db uid since excl limit) :
    b ∈ db.backups ∧ b.user_id = uid ∧
      (∀ t, since = some t → t < b.updated_at) ∧
      (∀ dev, excl = some dev → dev ≠ "" → b.device_id ≠ dev) := by
  simp only [fetch_backups_since] at hb
  have hb3 := List.mem_of_mem_take hb
  rw [List.mem_insertionSort] at hb3
  by_cases hT : strTruthy excl = true
  · rw [if_pos hT] at hb3
    obtain ⟨hb4, hdevb⟩ := List.mem_filter.mp hb3
    rcases since with _ | t
    · obtain ⟨hb5, huser⟩ := List.mem_filter.mp hb4
      refine ⟨hb5, by simpa using huser, by simp, ?_⟩
      intro dev hdev hne
      subst hdev
      simp only [Option.getD_some, bne_iff_ne, ne_eq] at hdevb
      exact hdevb
    · obtain ⟨hb5, hts⟩ := List.mem_filter.mp hb4
      obtain ⟨hb6, huser⟩ := List.mem_filter.mp hb5
      refine ⟨hb6, by simpa using huser, ?_, ?_⟩
      · intro t2 ht2
        cases ht2
        simpa using hts
      · intro dev hdev hne
        subst hdev
        simp only [Option.getD_some, bne_iff_ne, ne_eq] at hdevb
        exact hdevb
  · rw [if_neg hT] at hb3
    rcases since with _ | t
    · obtain ⟨hb5, huser⟩ := List.mem_filter.mp hb3
      refine ⟨hb5, by simpa using huser, by simp, ?_⟩
      intro dev hdev hne
      subst hdev
      exact absurd (by simpa [strTruthy] using hne) hT
    · obtain ⟨hb5, hts⟩ := List.mem_filter.mp hb3
      obtain ⟨hb6, huser⟩ := List.mem_filter.mp hb5
      refine ⟨hb6, by simpa using huser, ?_, ?_⟩
      · intro t2 ht2
        cases ht2
        simpa using hts
      · intro dev hdev hne
        subst hdev
        exact absurd (by simpa [strTruthy] using hne) hT

/-- When a page comes back shorter than `limit`, the `LIMIT` clause cut
nothing, so every row of the sorted query is in the page. -/
theorem take_insertionSort_complete (q : List EncryptedBackup) (limit : Nat)
    (b : EncryptedBackup)
    (hlen : ((List.insertionSort updLe q).take limit).length < limit)
    (hbq : b ∈ q) : b ∈ (List.insertionSort updLe q).take limit := by
  rw [List.length_take] at hlen
  have hslen : (List.insertionSort updLe q).length < limit := by omega
  rw [List.take_of_length_le (Nat.le_of_lt hslen), List.mem_insertionSort]
  exact hbq

/-- A stored row whose `device_id` is the empty string. -/
def eEmptyDev : EncryptedBackup := { eA with device_id := "" }

/-- A session holding exactly the empty-device row. -/
def dbED : DB := { backups := [eEmptyDev], conflicts := [] }

/-- Counterexample to C7 as stated: with `excludeDevice` given as the
empty string, a record whose `device_id` IS the empty string — equal to
the given `excludeDevice` — is returned, because Python treats the
empty string as falsy and skips the device filter
(sync_service.py line 189). -/
theorem claim7_counterexample :
    (fetch_encrypted_backups dbED 0 none (some "") 10).1 = [eEmptyDev] ∧
      eEmptyDev.device_id = "" := by
  decide

/-- Claim C7 amended: the fetch returns only the owner's records with
`updatedAt` strictly past a present cursor, never a record matching a
NON-EMPTY `excludeDevice`, at most `limit` records ordered ascending by
`updatedAt`, with `hasMore = (countReturned == limit)`; and with no
cursor and a non-full page, every owner record passing the device
filter is returned. -/
theorem claim7_fetch_spec (db : DB) (uid : Nat) (since : Option Nat)
    (excl : Option String) (limit : Nat) :
    (∀ b ∈ (fetch_encrypted_backups db uid since excl limit).1,
      b.user_id = uid ∧ (∀ t, since = some t → t < b.updated_at) ∧
      (∀ dev, excl = some dev → dev ≠ "" → b.device_id ≠ dev)) ∧
    (fetch_encrypted_backups db uid since excl limit).1.length ≤ limit ∧
    List.Pairwise (fun a b => a.updated_at ≤ b.updated_at)
      (fetch_encrypted_backups db uid since excl limit).1 ∧
    (fetch_encrypted_backups db uid since excl limit).2 =
      ((fetch_encrypted_backups db uid since excl limit).1.length == limit) ∧
    (since = none → (fetch_encrypted_backups db uid since excl limit).1.length < limit →
      ∀ b ∈ db.backups, b.user_id = uid →
        (∀ dev, excl = some dev → dev ≠ "" → b.device_id ≠ dev) →
        b ∈ (fetch_encrypted_backups db uid since excl limit).1) := by
  refine ⟨?_, ?_, ?_, rfl, ?_⟩
  · intro b hb
    exact (fetch_mem_spec db uid since excl limit b hb).2
  · exact List.length_take_le limit _
  · have hsall : ∀ q : List EncryptedBackup,
        List.Pairwise (fun a b => a.updated_at ≤ b.updated_at)
          ((List.insertionSort updLe q).take limit) := by
      intro q
      exact ((List.sorted_insertionSort updLe q).sublist
        (List.take_sublist limit _)).imp (fun h => h)
    exact hsall _
  · intro hnone hlen b hbdb huser hdev
    subst hnone
    simp only [fetch_encrypted_backups, fetch_backups_since] at hlen ⊢
    apply take_insertionSort_complete _ limit b hlen
    rcases excl with _ | dev
    · rw [if_neg (by simp [strTruthy])]
      exact List.mem_filter.mpr ⟨hbdb, by simp [huser]⟩
    · by_cases hne : dev = ""
      · subst hne
        rw [if_neg (by simp [strTruthy])]
        exact List.mem_filter.mpr ⟨hbdb, by simp [huser]⟩
      · rw [if_pos (by simp [strTruthy, hne])]
        refine List.mem_filter.mpr ⟨List.mem_filter.mpr ⟨hbdb, by simp [huser]⟩, ?_⟩
        simpa using hdev dev rfl hne

/-- Witness for the amended C7 at a concrete query against `dbAX`. -/
theorem claim7_witness :
    (fetch_encrypted_backups dbAX 0 (some 12) (some "Q") 50).1.length ≤ 50 :=
  (claim7_fetch_spec dbAX 0 (some 12) (some "Q") 50).2.1

/-! ### C8 — unresolved-conflict listing -/

/-- When a table holds at most one `q`-row and the first `p`-match is
updated (with every `p`-row also a `q`-row), any remaining `q`-row of
the updated table is the image of a `p`-row under the update. -/
theorem mem_updateFirst_of_unique {α} {p q : α → Bool} {f : α → α}
    (hpq : ∀ x, p x = true → q x = true) :
    ∀ l : List α, (l.filter q).length ≤ 1 → (∃ a ∈ l, p a = true) →
      ∀ x ∈ updateFirst p f l, q x = true → ∃ y, p y = true ∧ x = f y := by
  intro l
  induction l with
  | nil =>
    intro _ _ x hx
    simp [updateFirst] at hx
  | cons a as ih =>
    intro hu hex x hx hqx
    by_cases hpa : p a = true
    · simp only [updateFirst] at hx
      rw [if_pos hpa] at hx
      rcases List.mem_cons.mp hx with rfl | hxas
      · exact ⟨a, hpa, rfl⟩
      · exfalso
        have hqa := hpq a hpa
        rw [List.filter_cons, if_pos hqa] at hu
        have h0 : (as.filter q).length = 0 := by
          rw [List.length_cons] at hu
          omega
        have hemp : as.filter q = [] := List.length_eq_zero.mp h0
        have hxin : x ∈ as.filter q := List.mem_filter.mpr ⟨hxas, hqx⟩
        rw [hemp] at hxin
        simp at hxin
    · simp only [updateFirst] at hx
      rw [if_neg hpa] at hx
      rcases List.mem_cons.mp hx with rfl | hxas
      · exfalso
        rcases hex with ⟨m, hm, hpm⟩
        rcases List.mem_cons.mp hm with rfl | hmas
        · exact hpa hpm
        · have hqm := hpq m hpm
          rw [List.filter_cons, if_pos hqx] at hu
          have h0 : (as.filter q).length = 0 := by
            rw [List.length_cons] at hu
            omega
          have hemp : as.filter q = [] := List.length_eq_zero.mp h0
          have hmin : m ∈ as.filter q := List.mem_filter.mpr ⟨hmas, hqm⟩
          rw [hemp] at hmin
          simp at hmin
      · have hu' : (as.filter q).length ≤ 1 := by
          rw [List.filter_cons] at hu
          by_cases hqa : q a = true
          · rw [if_pos hqa] at hu
            rw [List.length_cons] at hu
            omega
          · rw [if_neg hqa] at hu
            exact hu
        have hex' : ∃ m ∈ as, p m = true := by
          rcases hex with ⟨m, hm, hpm⟩
          rcases List.mem_cons.mp hm with rfl | hmas
          · exact absurd hpm hpa
          · exact ⟨m, hmas, hpm⟩
        exact ih hu' hex' x hxas hqx

/-- Claim C8: `get_unresolved_conflicts` returns exactly the owner's
conflicts with `resolved = false`, most recently detected first; and
after a successful resolve of a conflict (whose id, as a primary key,
occurs at most once in the table), that conflict no longer appears in
the listing. -/
theorem claim8_unresolved_listing (db : DB) (uid : Nat) :
    (get_unresolved_conflicts db uid).Perm
      (db.conflicts.filter (fun c => c.user_id == uid && c.resolved == false)) ∧
    (∀ c, c ∈ get_unresolved_conflicts db uid ↔
      (c ∈ db.conflicts ∧ c.user_id = uid ∧ c.resolved = false)) ∧
    List.Pairwise (fun a b => b.detected_at ≤ a.detected_at)
      (get_unresolved_conflicts db uid) ∧
    (∀ cid res now db2 b2,
      (db.conflicts.filter (fun x => x.id == cid)).length ≤ 1 →
      resolve_conflict db cid uid res now = (db2, ResolveOutcome.ok b2) →
      ∀ c ∈ get_unresolved_conflicts db2 uid, c.id ≠ cid) := by
  refine ⟨List.perm_insertionSort detGe _, ?_, ?_, ?_⟩
  · intro c
    simp [get_unresolved_conflicts, List.mem_filter, and_assoc]
  · exact (List.sorted_insertionSort detGe _).imp (fun h => h)
  · intro cid res now db2 b2 huniq hres c hc heq
    unfold resolve_conflict at hres
    cases hcf : (db.conflicts.filter (fun x => x.id == cid && x.user_id == uid)).head? with
    | none =>
      rw [hcf] at hres
      dsimp only at hres
      exact absurd (Prod.ext_iff.mp hres).2 (by simp)
    | some c0 =>
      rw [hcf] at hres
      dsimp only at hres
      cases hbf : (db.backups.filter (fun x => x.id == c0.log_id && x.user_id == uid)).head? with
      | none =>
        rw [hbf] at hres
        dsimp only at hres
        exact absurd (Prod.ext_iff.mp hres).2 (by simp)
      | some b0 =>
        rw [hbf] at hres
        dsimp only at hres
        cases happ : applyResolution res c0 b0 now with
        | none =>
          rw [happ] at hres
          dsimp only at hres
          exact absurd (Prod.ext_iff.mp hres).2 (by simp)
        | some b2p =>
          rw [happ] at hres
          dsimp only at hres
          obtain ⟨hdb2, _⟩ := Prod.ext_iff.mp hres
          subst hdb2
          have hcmem : c ∈ updateFirst (fun x => x.id == cid && x.user_id == uid)
              (fun x => { x with resolved := true, resolved_at := some now })
              db.conflicts ∧ c.user_id = uid ∧ c.resolved = false := by
            simpa [get_unresolved_conflicts, List.mem_filter, and_assoc] using hc
          have hkey := (head_filter_eq_some _ _ _ hcf).2
          have hkeyp := (head_filter_eq_some _ _ _ hcf).1
          obtain ⟨y, hpy, hcy⟩ :=
            mem_updateFirst_of_unique
              (fun x hx => by
                simp only [Bool.and_eq_true] at hx
                exact hx.1)
              db.conflicts huniq ⟨c0, hkey, hkeyp⟩ c hcmem.1
              (by simp [heq])
          have hcr : c.resolved = true := by rw [hcy]
          rw [hcmem.2.2] at hcr
          exact Bool.false_ne_true hcr

/-- Witness for C8: the membership characterisation instantiated at the
concrete conflict `cW` in `dbConf`. -/
theorem claim8_witness :
    cW ∈ get_unresolved_conflicts dbConf 0 ↔
      (cW ∈ dbConf.conflicts ∧ cW.user_id = 0 ∧ cW.resolved = false) :=
  (claim8_unresolved_listing dbConf 0).2.1 cW

/-! ### C9 — cross-owner isolation -/

/-- `applyResolution` never changes the owner of the row it updates. -/
theorem applyResolution_user_id (res : ConflictResolution) (c : SyncConflict)
    (b b2 : EncryptedBackup) (now : Nat)
    (h : applyResolution res c b now = some b2) : b2.user_id = b.user_id := by
  unfold applyResolution at h
  by_cases h1 : res.chosen_version = "local"
  · rw [if_pos h1] at h
    cases h
    rfl
  · rw [if_neg h1] at h
    by_cases h2 : res.chosen_version = "remote"
    · rw [if_pos h2] at h
      cases h
      rfl
    · rw [if_neg h2] at h
      by_cases h3 : res.chosen_version = "merged"
      · rw [if_pos h3] at h
        rcases hfc : res.final_encrypted_content with _ | fc
        · rw [hfc] at h
          dsimp only at h
          cases h
        · rcases hfi : res.final_iv with _ | fiv
          · rw [hfc, hfi] at h
            dsimp only at h
            cases h
          · rw [hfc, hfi] at h
            dsimp only at h
            by_cases hemb : strTruthy res.final_encrypted_embedding = true
            · rw [if_pos hemb] at h
              cases h
              rfl
            · rw [if_neg hemb] at h
              cases h
              rfl
      · rw [if_neg h3] at h
        cases h
        rfl

/-- The upsert touches no other owner's rows and returns only rows of
the calling owner. -/
theorem store_owner_frame (db : DB) (uid : Nat) (d : EncryptedBackupData) (now cid : Nat) :
    otherOwnersBackups (store_encrypted_backup db uid d now cid).1 uid =
      otherOwnersBackups db uid ∧
    otherOwnersConflicts (store_encrypted_backup db uid d now cid).1 uid =
      otherOwnersConflicts db uid ∧
    (∀ b, (store_encrypted_backup db uid d now cid).2.1 = some b → b.user_id = uid) ∧
    (∀ c, (store_encrypted_backup db uid d now cid).2.2 = some c → c.user_id = uid) := by
  unfold store_encrypted_backup
  cases hf : (db.backups.filter (fun b => b.id == d.id && b.user_id == uid)).head? with
  | some e =>
    have he_user : e.user_id = uid := by
      have hk := (head_filter_eq_some _ _ _ hf).1
      simp only [Bool.and_eq_true, beq_iff_eq] at hk
      exact hk.2
    dsimp only
    by_cases hd : detect_conflict d e = true
    · rw [if_pos hd]
      unfold create_conflict_record
      dsimp only
      refine ⟨rfl, ?_, ?_, ?_⟩
      · unfold otherOwnersConflicts
        dsimp only
        rw [List.filter_append]
        simp
      · intro b hb
        simp at hb
      · intro c hc
        simp only [Option.some.injEq] at hc
        rw [← hc]
    · rw [if_neg hd]
      dsimp only
      refine ⟨?_, rfl, ?_, ?_⟩
      · unfold otherOwnersBackups
        dsimp only
        apply filter_updateFirst
        · intro x hx
          simp only [Bool.and_eq_true, beq_iff_eq] at hx
          simp [hx.2]
        · intro x hx
          simp only [Bool.and_eq_true, beq_iff_eq] at hx
          have hpres : (overwriteFromCandidate d x).user_id = x.user_id := by
            unfold overwriteFromCandidate
            by_cases hemb : strTruthy d.encrypted_embedding = true
            · rw [if_pos hemb]
            · rw [if_neg hemb]
          simp [hpres, hx.2]
      · intro b hb
        simp only [Option.some.injEq] at hb
        rw [← hb]
        have hpres : (overwriteFromCandidate d e).user_id = e.user_id := by
          unfold overwriteFromCandidate
          by_cases hemb : strTruthy d.encrypted_embedding = true
          · rw [if_pos hemb]
          · rw [if_neg hemb]
        rw [hpres, he_user]
      · intro c hc
        simp at hc
  | none =>
    dsimp only
    refine ⟨?_, rfl, ?_, ?_⟩
    · unfold otherOwnersBackups
      dsimp only
      rw [List.filter_append]
      simp
    · intro b hb
      simp only [Option.some.injEq] at hb
      rw [← hb]
    · intro c hc
      simp at hc

/-- Conflict resolution touches no other owner's rows and returns only
rows of the calling owner. -/
theorem resolve_owner_frame (db : DB) (uid rcid now : Nat) (res : ConflictResolution) :
    otherOwnersBackups (resolve_conflict db rcid uid res now).1 uid =
      otherOwnersBackups db uid ∧
    otherOwnersConflicts (resolve_conflict db rcid uid res now).1 uid =
      otherOwnersConflicts db uid ∧
    (∀ b, (resolve_conflict db rcid uid res now).2 = ResolveOutcome.ok b →
      b.user_id = uid) := by
  unfold resolve_conflict
  cases hcf : (db.conflicts.filter (fun c => c.id == rcid && c.user_id == uid)).head? with
  | none =>
    dsimp only
    exact ⟨rfl, rfl, by intro b hb; simp at hb⟩
  | some c0 =>
    dsimp only
    cases hbf : (db.backups.filter (fun b => b.id == c0.log_id && b.user_id == uid)).head? with
    | none =>
      dsimp only
      exact ⟨rfl, rfl, by intro b hb; simp at hb⟩
    | some b0 =>
      dsimp only
      have hb0_user : b0.user_id = uid := by
        have hk := (head_filter_eq_some _ _ _ hbf).1
        simp only [Bool.and_eq_true, beq_iff_eq] at hk
        exact hk.2
      cases happ : applyResolution res c0 b0 now with
      | none =>
        dsimp only
        exact ⟨rfl, rfl, by intro b hb; simp at hb⟩
      | some b2 =>
        dsimp only
        have hb2_user : b2.user_id = uid :=
          (applyResolution_user_id res c0 b0 b2 now happ).trans hb0_user
        refine ⟨?_, ?_, ?_⟩
        · unfold otherOwnersBackups
          dsimp only
          apply filter_updateFirst
          · intro x hx
            simp only [Bool.and_eq_true, beq_iff_eq] at hx
            simp [hx.2]
          · intro x hx
            simp [hb2_user]
        · unfold otherOwnersConflicts
          dsimp only
          apply filter_updateFirst
          · intro x hx
            simp only [Bool.and_eq_true, beq_iff_eq] at hx
            simp [hx.2]
          · intro x hx
            simp only [Bool.and_eq_true, beq_iff_eq] at hx
            simp [hx.2]
        · intro b hb
          cases hb
          exact hb2_user

/-- Deleting one backup touches no other owner's rows. -/
theorem delete_owner_frame (db : DB) (uid : Nat) (bid : String) :
    otherOwnersBackups (delete_backup db bid uid).1 uid = otherOwnersBackups db uid ∧
    otherOwnersConflicts (delete_backup db bid uid).1 uid = otherOwnersConflicts db uid := by
  unfold delete_backup
  cases hf : (db.backups.filter (fun b => b.id == bid && b.user_id == uid)).head? with
  | none => exact ⟨rfl, rfl⟩
  | some b0 =>
    dsimp only
    refine ⟨?_, rfl⟩
    unfold otherOwnersBackups
    dsimp only
    apply filter_removeFirst
    intro x hx
    simp only [Bool.and_eq_true, beq_iff_eq] at hx
    simp [hx.2]

/-- The bulk purge touches no other owner's rows. -/
theorem purge_owner_frame (db : DB) (uid : Nat) :
    otherOwnersBackups (delete_all_backups db uid).1 uid = otherOwnersBackups db uid ∧
    otherOwnersConflicts (delete_all_backups db uid).1 uid = otherOwnersConflicts db uid := by
  unfold delete_all_backups otherOwnersBackups otherOwnersConflicts
  dsimp only
  refine ⟨?_, rfl⟩
  rw [List.filter_filter]
  simp [Bool.and_self]

/-- Claim C9: every sync operation invoked on behalf of one owner
leaves every other owner's backup and conflict rows untouched and
returns only rows owned by the caller. -/
theorem claim9_owner_isolation (db : DB) (uid : Nat) (d : EncryptedBackupData)
    (now cid : Nat) (since : Option Nat) (excl : Option String) (limit : Nat)
    (bid : String) (rcid : Nat) (res : ConflictResolution) :
    (otherOwnersBackups (store_encrypted_backup db uid d now cid).1 uid =
        otherOwnersBackups db uid ∧
      otherOwnersConflicts (store_encrypted_backup db uid d now cid).1 uid =
        otherOwnersConflicts db uid ∧
      (∀ b, (store_encrypted_backup db uid d now cid).2.1 = some b → b.user_id = uid) ∧
      (∀ c, (store_encrypted_backup db uid d now cid).2.2 = some c → c.user_id = uid)) ∧
    (∀ b ∈ fetch_backups_since db uid since excl limit, b.user_id = uid) ∧
    (otherOwnersBackups (delete_backup db bid uid).1 uid = otherOwnersBackups db uid ∧
      otherOwnersConflicts (delete_backup db bid uid).1 uid = otherOwnersConflicts db uid) ∧
    (otherOwnersBackups (delete_all_backups db uid).1 uid = otherOwnersBackups db uid ∧
      otherOwnersConflicts (delete_all_backups db uid).1 uid = otherOwnersConflicts db uid) ∧
    (∀ c ∈ get_unresolved_conflicts db uid, c.user_id = uid) ∧
    (otherOwnersBackups (resolve_conflict db rcid uid res now).1 uid =
        otherOwnersBackups db uid ∧
      otherOwnersConflicts (resolve_conflict db rcid uid res now).1 uid =
        otherOwnersConflicts db uid ∧
      (∀ b, (resolve_conflict db rcid uid res now).2 = ResolveOutcome.ok b →
        b.user_id = uid)) := by
  refine ⟨store_owner_frame db uid d now cid, ?_, delete_owner_frame db uid bid,
    purge_owner_frame db uid, ?_, resolve_owner_frame db uid rcid now res⟩
  · intro b hb
    exact (fetch_mem_spec db uid since excl limit b hb).2.1
  · intro c hc
    unfold get_unresolved_conflicts at hc
    rw [List.mem_insertionSort] at hc
    have hk := (List.mem_filter.mp hc).2
    simp only [Bool.and_eq_true, beq_iff_eq] at hk
    exact hk.1

/-- Witness for C9: the upsert frame projected at a concrete push. -/
theorem claim9_witness :
    otherOwnersBackups (store_encrypted_backup dbAX 0 dB 52 3).1 0 =
      otherOwnersBackups dbAX 0 :=
  (claim9_owner_isolation dbAX 0 dB 52 3 none none 10 "X" 3 resRemote).1.1

/-! ### C10 — Python truthiness corner of the fetch filters -/

/-- Modelled directly on the claim's words for C10: the fetch pipeline
with the timestamp filter removed entirely. -/
def fetchWithoutCursorSpec (db : DB) (uid : Nat) (exclude_device_id : Option String)
    (limit : Nat) : List EncryptedBackup :=
  let q := db.backups.filter (fun b => b.user_id == uid)
  let q := if strTruthy exclude_device_id then
      q.filter (fun b => b.device_id != exclude_device_id.getD "")
    else q
  (List.insertionSort updLe q).take limit

/-- Claim C10: an empty-string `excludeDevice` behaves exactly like an
absent one (so records whose `device_id` is the empty string are never
excluded), and a falsy (absent) cursor disables the timestamp filter
entirely. -/
theorem claim10_fetch_truthiness (db : DB) (uid : Nat) (since : Option Nat)
    (excl : Option String) (limit : Nat) :
    fetch_backups_since db uid since (some "") limit =
      fetch_backups_since db uid since none limit ∧
    fetch_backups_since db uid none excl limit =
      fetchWithoutCursorSpec db uid excl limit := by
  constructor
  · rfl
  · rfl
